import Mathlib

/-!
Verification development for the finge-rs neural-network trainer
(`src/nn.rs`).  The Rust code is shallowly embedded over `ℚ` (modelling
`f32` arithmetic without rounding); the transcendental functions used by
the activation functions are abstracted into an `Env` record of opaque
rational functions.  Vectors are lists of rationals and matrices are
lists of rows, mirroring nalgebra's `DVector`/`DMatrix` of the source.
-/

namespace NN

abbrev Vec := List ℚ
abbrev Mat := List (List ℚ)

/-- Abstract transcendental functions standing for `f32::exp`, `f32::tanh`,
`f32::cosh` used by the activation functions. -/
structure Env where
  exp : ℚ → ℚ
  tanh : ℚ → ℚ
  cosh : ℚ → ℚ

/-- Type `ActivationFunction` from `nn.rs`. -/
inductive ActivationFunction
  | Sigmoid
  | Tanh
  | Identity
deriving DecidableEq

/-- Function `ActivationFunction::function` from `nn.rs`:
Sigmoid: `1.0 / (1.0 + (-x * coeff).exp())`; Tanh: `(x * coeff).tanh()`;
Identity: `x * coeff`. -/
def ActivationFunction.function (fn : ActivationFunction) (env : Env) (x coeff : ℚ) : ℚ :=
  match fn with
  | .Sigmoid => 1 / (1 + env.exp (-x * coeff))
  | .Tanh => env.tanh (x * coeff)
  | .Identity => x * coeff

/-- Function `ActivationFunction::derivative` from `nn.rs`:
Sigmoid: `coeff * f(x) * (1 - f(x))`; Tanh: `coeff / (x * coeff).cosh()`;
Identity: `coeff`. -/
def ActivationFunction.derivative (fn : ActivationFunction) (env : Env) (x coeff : ℚ) : ℚ :=
  match fn with
  | .Sigmoid => coeff * fn.function env x coeff * (1 - fn.function env x coeff)
  | .Tanh => coeff / env.cosh (x * coeff)
  | .Identity => coeff

/-- Struct `Network` from `nn.rs`. -/
structure Network where
  layer_sizes : List Nat
  activation_coeffs : List ℚ
  weights : List Mat
  biases : List Vec
  activation_fn : ActivationFunction
deriving DecidableEq

/-- Struct `NetworkDefn` from `nn.rs`. -/
structure NetworkDefn where
  layers : List Nat
  activation_coeffs : List ℚ
  activation_fn : String
deriving DecidableEq

/-- Struct `TrainConfig` from `nn.rs`. -/
structure TrainConfig where
  learning_rate : ℚ
  momentum_rate : Option ℚ
  validation_ratio : ℚ
  sequential_validation_failures_required : Nat
  max_epochs : Option Nat
  epoch_log_period : Option Nat
  batch_size : Option ℚ
  regularization_param : ℚ
deriving DecidableEq

def vecZeros (n : Nat) : Vec := List.replicate n 0

def matZeros (r c : Nat) : Mat := List.replicate r (List.replicate c 0)

def dot (a b : Vec) : ℚ := (List.zipWith (fun x y => x * y) a b).sum

def matCols (m : Mat) : Nat := (m.headD []).length

/-- Row-vector times matrix, nalgebra's `DVec * DMat` as used in
`feed_forward` (`clone *= &self.weights[it + 1]`): entry `j` is
`Σ_i v[i] * m[i][j]`. -/
def rowMatMul (v : Vec) (m : Mat) : Vec :=
  (List.range (matCols m)).map (fun j => dot v (m.map (fun row => row.getD j 0)))

/-- Matrix times column-vector, nalgebra's `DMat * DVec` as used in
`backpropagate` (`&self.weights[it + 1] * &delta[it + 1]`). -/
def matVecMul (m : Mat) (v : Vec) : Vec := m.map (fun row => dot row v)

/-- Elementwise combination of two equally-shaped matrices (nalgebra's
elementwise `+=` and the elementwise update loops, which zip the raw
storage of the two matrices). -/
def matMap2 (f : ℚ → ℚ → ℚ) (a b : Mat) : Mat := List.zipWith (List.zipWith f) a b

/-- Rust `layers[it-1].outer(&delta[it])`: outer product. -/
def outer (a b : Vec) : Mat := a.map (fun x => b.map (fun y => x * y))

/-- Function `DVector::norm_squared`, and also the per-matrix sum of squares in
`Network::cost`. -/
def sumSq (v : Vec) : ℚ := (v.map (fun x => x * x)).sum

/-- The `match` on the activation-function name in `Network::from_definition`;
the `panic!` of the unrecognized case is modelled by `none`. -/
def parseActivation (s : String) : Option ActivationFunction :=
  match s with
  | "sigmoid" => some ActivationFunction.Sigmoid
  | "tanh" => some ActivationFunction.Tanh
  | "id" => some ActivationFunction.Identity
  | _ => none

/-- Function `Network::from_definition` from `nn.rs`: weight matrices from
`layers.windows(2)`, biases from all layers, then a `0.0` coefficient and a
degenerate `0×0` weight matrix are inserted at index 0. -/
def from_definition (defn : NetworkDefn) : Option Network :=
  (parseActivation defn.activation_fn).map (fun fn =>
    { layer_sizes := defn.layers
      activation_coeffs := 0 :: defn.activation_coeffs
      weights := matZeros 0 0 :: (List.range (defn.layers.length - 1)).map
        (fun i => matZeros (defn.layers.getD i 0) (defn.layers.getD (i + 1) 0))
      biases := defn.layers.map (fun sz => vecZeros sz)
      activation_fn := fn })

/-- Function `Network::zero_layers`. -/
def zero_layers (net : Network) : List Vec := net.layer_sizes.map (fun sz => vecZeros sz)

/-- Function `Network::zero_weights`. -/
def zero_weights (net : Network) : List Mat :=
  matZeros 0 0 :: (List.range (net.layer_sizes.length - 1)).map
    (fun i => matZeros (net.layer_sizes.getD i 0) (net.layer_sizes.getD (i + 1) 0))

/-- Function `Network::weight_sum`: `delta1.iter_mut().zip(delta2)` adds elementwise
over the common prefix and keeps the tail of `delta1` untouched. -/
def weight_sum (delta1 delta2 : List Mat) : List Mat :=
  List.zipWith (matMap2 (fun a b => a + b)) delta1 delta2 ++ delta1.drop delta2.length

/-- Function `Network::bias_sum`. -/
def bias_sum (bias1 bias2 : List Vec) : List Vec :=
  List.zipWith (List.zipWith (fun a b => a + b)) bias1 bias2 ++ bias1.drop bias2.length

/-- Function `Network::cost` from `nn.rs`: returns `0` when `examples == 0`, otherwise
`output_error` plus, when the regularization parameter λ is nonzero,
`λ * (Σ_mat sumSq(mat) / examples) / weights.len()`. -/
def cost (net : Network) (output_error : ℚ) (examples : Nat) (conf : TrainConfig) : ℚ :=
  if examples = 0 then 0
  else
    output_error +
      (if conf.regularization_param ≠ 0 then
        conf.regularization_param *
          ((net.weights.map (fun mat => sumSq mat.flatten / (examples : ℚ))).sum) /
          (net.weights.length : ℚ)
      else 0)

/-- One iteration of the loop body of `Network::feed_forward` at index `it`:
`layer_inputs[it+1] = layers[it] * weights[it+1] + biases[it+1]` and
`layers[it+1] = activation(layer_inputs[it+1], coeffs[it+1])`.
The state is the pair `(layers, layer_inputs)`. -/
def ffStep (net : Network) (env : Env) (st : List Vec × List Vec) (it : Nat) :
    List Vec × List Vec :=
  let inputv := rowMatMul (st.1.getD it []) (net.weights.getD (it + 1) [])
  let ni := List.zipWith (fun a b => a + b) inputv (net.biases.getD (it + 1) [])
  (st.1.set (it + 1)
      (ni.map (fun inp => net.activation_fn.function env inp (net.activation_coeffs.getD (it + 1) 0))),
   st.2.set (it + 1) ni)

/-- Function `Network::feed_forward`: `for it in 0..(stop_at - 1)` over the mutable
state `(layers, layer_inputs)`. -/
def feed_forward (net : Network) (env : Env) (st : List Vec × List Vec) (stop_at : Nat) :
    List Vec × List Vec :=
  (List.range (stop_at - 1)).foldl (ffStep net env) st

/-- Function `Network::eval_impl`: sets `layers[0] = example`, makes a fresh
zeroed `layer_inputs`, and runs the full forward pass.  Like the source, it
ignores its `stop_at` argument and always feeds forward to `layers.len()`. -/
def eval_impl (net : Network) (env : Env) (layers : List Vec) (ex : Vec)
    (stop_at : Nat) : List Vec × List Vec :=
  feed_forward net env (layers.set 0 ex, zero_layers net) layers.length

/-- Function `Network::eval`: full forward pass, returning the last layer. -/
def eval (net : Network) (env : Env) (ex : Vec) : Vec :=
  (eval_impl net env (zero_layers net) ex (zero_layers net).length).1.getLastD []

/-- Function `Network::eval_to_layer`: runs `eval_impl` (which ignores the `layer`
stop argument) and returns `layers[layer - 1]`. -/
def eval_to_layer (net : Network) (env : Env) (ex : Vec) (layer : Nat) : Vec :=
  (eval_impl net env (zero_layers net) ex layer).1.getD (layer - 1) []

/-- The in-place derivative transform at the top of `Network::backpropagate`:
`layers.iter_mut().zip(&self.activation_coeffs)` replaces each entry by its
activation derivative; entries of `layers` beyond the coefficient list are
left unchanged (zip truncation). -/
def derivLayers (net : Network) (env : Env) (layers : List Vec) : List Vec :=
  List.zipWith (fun l c => l.map (fun x => net.activation_fn.derivative env x c))
      layers net.activation_coeffs
    ++ layers.drop net.activation_coeffs.length

/-- One iteration of the descending loop of `Network::backpropagate`:
`delta[it] = (weights[it+1] * delta[it+1]) ⊙ fprime[it]`. -/
def bpStep (net : Network) (dl : List Vec) (delta : List Vec) (it : Nat) : List Vec :=
  delta.set it (List.zipWith (fun d x => d * x)
    (matVecMul (net.weights.getD (it + 1) []) (delta.getD (it + 1) []))
    (dl.getD it []))

/-- Function `Network::backpropagate` from `nn.rs`. -/
def backpropagate (net : Network) (env : Env) (layers : List Vec)
    (out_layer_diff : Vec) (conf : TrainConfig) : List Vec :=
  let dl := derivLayers net env layers
  let delta1 := (zero_layers net).set ((zero_layers net).length - 1)
    (List.zipWith (fun e fz => e * fz) out_layer_diff (dl.getLastD []))
  ((List.range (dl.length - 1)).reverse).foldl (bpStep net dl) delta1

/-- Function `Network::compute_weight_update`: for `it in 1..layers.len()`,
`weight_update[it] = layers[it-1] ⊗ delta[it]`, `bias_update[it] = delta[it]`. -/
def compute_weight_update (net : Network) (layers : List Vec) (delta : List Vec)
    (conf : TrainConfig) : List Mat × List Vec :=
  (List.range (layers.length - 1)).foldl
    (fun acc j =>
      (acc.1.set (j + 1) (outer (layers.getD j []) (delta.getD (j + 1) [])),
       acc.2.set (j + 1) (delta.getD (j + 1) [])))
    (zero_weights net, zero_layers net)

/-- Function `Network::validation_error_of`: forward-evaluates `input` and returns
`‖output - last_layer‖² / last_layer.len()`. -/
def validation_error_of (net : Network) (env : Env) (layers : List Vec)
    (input output : Vec) : ℚ :=
  let res := (eval_impl net env layers input layers.length).1
  let lastL := res.getLastD []
  sumSq (List.zipWith (fun a b => a - b) output lastL) / (lastL.length : ℚ)

/-- Index-carrying map used to model the `for it in 0..len` update loops of
`Network::update_weights`. -/
def mapIdxFrom (f : Nat → α → β) : Nat → List α → List β
  | _, [] => []
  | i, x :: xs => f i x :: mapIdxFrom f (i + 1) xs

/-- Function `Network::update_weights` from `nn.rs`: for every weight,
`if it == 1 { w *= 1 - λ·lr/N }; w -= dw/N*lr`; biases the same without the
regularization factor; then, when momentum is configured, a second pass
subtracts `last_dw/N*momentum` from every weight and bias. -/
def update_weights (net : Network) (weight_update_sum : List Mat)
    (bias_update_sum : List Vec) (last_weight_update_sum : List Mat)
    (last_bias_update_sum : List Vec) (examples : Nat) (conf : TrainConfig) : Network :=
  let N : ℚ := (examples : ℚ)
  let weights1 := mapIdxFrom (fun it m =>
    matMap2 (fun w dw =>
      (if it = 1 then w * (1 - conf.regularization_param * conf.learning_rate / N) else w)
        - dw / N * conf.learning_rate) m (weight_update_sum.getD it [])) 0 net.weights
  let biases1 := mapIdxFrom (fun it v =>
    List.zipWith (fun b db => b - db / N * conf.learning_rate) v
      (bias_update_sum.getD it [])) 0 net.biases
  match conf.momentum_rate with
  | none => { net with weights := weights1, biases := biases1 }
  | some momentum =>
    { net with
      weights := mapIdxFrom (fun it m =>
        matMap2 (fun w dw => w - dw / N * momentum) m
          (last_weight_update_sum.getD it [])) 0 weights1,
      biases := mapIdxFrom (fun it v =>
        List.zipWith (fun b db => b - db / N * momentum) v
          (last_bias_update_sum.getD it [])) 0 biases1 }

/-- The per-example closure of the parallel map in `Network::train`:
forward pass, squared output error, backpropagation and per-example
weight/bias gradient contribution. -/
def exampleGrad (net : Network) (env : Env) (conf : TrainConfig) (exa : Vec × Vec) :
    List Mat × List Vec × ℚ :=
  let layers0 := (zero_layers net).set 0 exa.1
  let st := feed_forward net env (layers0, zero_layers net) layers0.length
  let out_layer_diff := List.zipWith (fun a b => a - b) (st.1.getLastD []) exa.2
  let train_error := sumSq out_layer_diff / (out_layer_diff.length : ℚ)
  let residual := backpropagate net env st.2 out_layer_diff conf
  let upd := compute_weight_update net st.1 residual conf
  (upd.1, upd.2, train_error)

/-- The rayon reduction of `Network::train` (identity = zero accumulators,
contributions combined with `weight_sum`/`bias_sum`/`+`), modelled as a
left fold over the batch. -/
def epochGrads (net : Network) (env : Env) (conf : TrainConfig)
    (batch : List (Vec × Vec)) : List Mat × List Vec × ℚ :=
  batch.foldl (fun acc exa =>
      let g := exampleGrad net env conf exa
      (weight_sum acc.1 g.1, bias_sum acc.2.1 g.2.1, acc.2.2 + g.2.2))
    (zero_weights net, zero_layers net, 0)

/-- The validation cost computed in one epoch of `Network::train` on the
post-update network: mean validation error fed through `Network::cost`. -/
def epochValCost (env : Env) (conf : TrainConfig) (vd : List (Vec × Vec))
    (net : Network) : ℚ :=
  let verr := ((vd.map (fun p => validation_error_of net env (zero_layers net) p.1 p.2)).sum)
    / (vd.length : ℚ)
  cost net verr vd.length conf

/-- The mutable state of the `Network::train` loop: the network being
trained plus the local variables of `train` (`validation_cost = none`
models the initial `f32::INFINITY`). -/
structure TrainState where
  net : Network
  epochs_since_validation_improvement : Nat
  epoch : Nat
  last_weight_update_sum : List Mat
  last_bias_update_sum : List Vec
  best_known_net : Network
  validation_cost : Option ℚ
deriving DecidableEq

/-- One executed epoch body of `Network::train` (the batch has already been
obtained and `epoch` has already been incremented by the caller):
gradient reduction, weight update, validation bookkeeping, momentum
carry-over of the epoch's accumulated gradients. -/
def epochBody (env : Env) (conf : TrainConfig) (validation_data : Option (List (Vec × Vec)))
    (batch : List (Vec × Vec)) (s : TrainState) : TrainState :=
  let g := epochGrads s.net env conf batch
  let net1 := update_weights s.net g.1 g.2.1 s.last_weight_update_sum
    s.last_bias_update_sum batch.length conf
  let s1 :=
    match validation_data with
    | none => { s with net := net1 }
    | some vd =>
      let nvc := epochValCost env conf vd net1
      let improved :=
        match s.validation_cost with
        | none => true
        | some c => decide (nvc < c)
      if improved then
        { s with net := net1, epochs_since_validation_improvement := 0,
                 best_known_net := net1, validation_cost := some nvc }
      else
        { s with net := net1,
                 epochs_since_validation_improvement :=
                   s.epochs_since_validation_improvement + 1 }
  match conf.momentum_rate with
  | none => s1
  | some _ => { s1 with last_weight_update_sum := g.1, last_bias_update_sum := g.2.1 }

/-- The cooperative cancellation flag of `Network::train`
(`Option<Arc<AtomicBool>>`), modelled as the sequence of values it is read
to have: the check in iteration `k` (i.e. when `epoch = k`) reads `f k`. -/
def optFlag (learning : Option (Nat → Bool)) (k : Nat) : Bool :=
  match learning with
  | none => true
  | some f => f k

/-- The `while` continuation predicate of `Network::train`: still learning,
validation-failure streak below the patience, and the epoch cap (if any)
not reached. -/
def loopCond (conf : TrainConfig) (learning : Option (Nat → Bool)) (s : TrainState) : Bool :=
  optFlag learning s.epoch &&
  decide (s.epochs_since_validation_improvement <
    conf.sequential_validation_failures_required) &&
  (match conf.max_epochs with
   | none => true
   | some m => decide (s.epoch < m))

/-- The `while` loop of `Network::train`, with explicit fuel (the Rust loop
need not terminate in general).  The batch factory is modelled as the
sequence of its results: its `k`-th call (made in the iteration entered
with `epoch = k`) returns `factory k`; `none` is exhaustion, which breaks
out of the loop after the `epoch += 1`. -/
def trainLoop (env : Env) (conf : TrainConfig) (factory : Nat → Option (List (Vec × Vec)))
    (validation_data : Option (List (Vec × Vec))) (learning : Option (Nat → Bool)) :
    Nat → TrainState → TrainState
  | 0, s => s
  | Nat.succ fuel, s =>
    if loopCond conf learning s then
      match factory s.epoch with
      | none => { s with epoch := s.epoch + 1 }
      | some batch =>
        trainLoop env conf factory validation_data learning fuel
          (epochBody env conf validation_data batch { s with epoch := s.epoch + 1 })
    else s

/-- The initial local state of `Network::train`. -/
def initState (net : Network) : TrainState :=
  { net := net
    epochs_since_validation_improvement := 0
    epoch := 0
    last_weight_update_sum := zero_weights net
    last_bias_update_sum := zero_layers net
    best_known_net := net
    validation_cost := none }

/-- Function `Network::train`: run the loop, then, if validating, replace the network
by the best-known snapshot. -/
def train (env : Env) (conf : TrainConfig) (factory : Nat → Option (List (Vec × Vec)))
    (validation_data : Option (List (Vec × Vec))) (learning : Option (Nat → Bool))
    (fuel : Nat) (net : Network) : Network :=
  let sF := trainLoop env conf factory validation_data learning fuel (initState net)
  if validation_data.isSome then sF.best_known_net else sF.net

/-- The unguarded iterates of the epoch body for a never-exhausting batch
supplier `bs` and a configured validation set: `runFrom … k` is the loop
state after `k` executed epochs. -/
def runFrom (env : Env) (conf : TrainConfig) (bs : Nat → List (Vec × Vec))
    (vd : List (Vec × Vec)) (net : Network) : Nat → TrainState
  | 0 => initState net
  | k + 1 =>
    let s := runFrom env conf bs vd net k
    epochBody env conf (some vd) (bs s.epoch) { s with epoch := s.epoch + 1 }

/-- The forward recurrence of the specification: `forwardPair … i` is the
pair `(net[i], layer[i])` of pre-activation sums and activations at layer
`i` (`net[0]` being the untouched zero vector of `layer_inputs[0]`). -/
def forwardPair (net : Network) (env : Env) (input : Vec) : Nat → Vec × Vec
  | 0 => (vecZeros (net.layer_sizes.getD 0 0), input)
  | i + 1 =>
    let ni := List.zipWith (fun a b => a + b)
      (rowMatMul (forwardPair net env input i).2 (net.weights.getD (i + 1) []))
      (net.biases.getD (i + 1) [])
    (ni, ni.map (fun inp => net.activation_fn.function env inp
      (net.activation_coeffs.getD (i + 1) 0)))

/-- Entry `layer[i]` of the forward recurrence. -/
def layerRec (net : Network) (env : Env) (input : Vec) (i : Nat) : Vec :=
  (forwardPair net env input i).2

/-- Entry `net[i]` (pre-activation sums) of the forward recurrence. -/
def netRec (net : Network) (env : Env) (input : Vec) (i : Nat) : Vec :=
  (forwardPair net env input i).1

/-- The backward recurrence of the specification, indexed from the output
layer: `deltaRec … L k` is the error signal at layer `L - 1 - k` for the
derivative-transformed pre-activations `dl` and output diff `diff`. -/
def deltaRec (net : Network) (dl : List Vec) (diff : Vec) (L : Nat) : Nat → Vec
  | 0 => List.zipWith (fun e fz => e * fz) diff (dl.getLastD [])
  | k + 1 => List.zipWith (fun d x => d * x)
      (matVecMul (net.weights.getD (L - 1 - k) []) (deltaRec net dl diff L k))
      (dl.getD (L - 2 - k) [])

/-- The cost formula exactly as the specification sentence for claim C3
states it: `e + ( Σ over weight layers of mean(w²) ) · λ / num_weight_layers`,
where `mean(w²)` averages over the entries of each weight matrix. -/
def claimedCost (net : Network) (output_error : ℚ) (conf : TrainConfig) : ℚ :=
  output_error +
    (if conf.regularization_param ≠ 0 then
      ((net.weights.map (fun mat => sumSq mat.flatten / (mat.flatten.length : ℚ))).sum) *
        conf.regularization_param / (net.weights.length : ℚ)
    else 0)

/-! Concrete instances used by witnesses and counterexamples. -/

/-- An environment whose transcendental slots are the identity; the
`Identity` activation never consults it. -/
def envI : Env := ⟨fun q => q, fun q => q, fun q => q⟩

/-- A 1-input / 1-output identity-activation network with weight 2. -/
def netA : Network :=
  { layer_sizes := [1, 1], activation_coeffs := [0, 1],
    weights := [[], [[2]]], biases := [[0], [0]],
    activation_fn := ActivationFunction.Identity }

/-- Like `netA` but with weight 1, the starting point of the early-stopping
run. -/
def netW : Network :=
  { layer_sizes := [1, 1], activation_coeffs := [0, 1],
    weights := [[], [[1]]], biases := [[0], [0]],
    activation_fn := ActivationFunction.Identity }

/-- A three-layer identity-activation network for the backpropagation
witness. -/
def netB : Network :=
  { layer_sizes := [1, 1, 1], activation_coeffs := [0, 1, 1],
    weights := [[], [[2]], [[3]]], biases := [[0], [0], [0]],
    activation_fn := ActivationFunction.Identity }

/-- Patience 2, learning rate −1 (so gradient steps make the loss grow),
no momentum, no regularization, no epoch cap. -/
def confW : TrainConfig :=
  { learning_rate := -1, momentum_rate := none, validation_ratio := 0,
    sequential_validation_failures_required := 2, max_epochs := none,
    epoch_log_period := none, batch_size := none, regularization_param := 0 }

/-- Config with λ = 1, learning rate 1, no momentum. -/
def confR : TrainConfig :=
  { learning_rate := 1, momentum_rate := none, validation_ratio := 0,
    sequential_validation_failures_required := 1, max_epochs := none,
    epoch_log_period := none, batch_size := none, regularization_param := 1 }

/-- Like `confR` but with momentum 1. -/
def confM : TrainConfig :=
  { learning_rate := 1, momentum_rate := some 1, validation_ratio := 0,
    sequential_validation_failures_required := 1, max_epochs := none,
    epoch_log_period := none, batch_size := none, regularization_param := 1 }

/-- Config with an epoch cap and learning rate 0 (a frozen network, whose
validation cost can never strictly increase). -/
def confCap : TrainConfig :=
  { learning_rate := 0, momentum_rate := none, validation_ratio := 0,
    sequential_validation_failures_required := 2, max_epochs := some 5,
    epoch_log_period := none, batch_size := none, regularization_param := 0 }

/-- Constant batch supplier: every epoch trains on the single example
`([1], [0])`. -/
def bsW : Nat → List (Vec × Vec) := fun _ => [([1], [0])]

/-- Validation set: the same single example. -/
def vdW : List (Vec × Vec) := [([1], [0])]

/-- A batch supplier that is exhausted from the very first request. -/
def factoryNone : Nat → Option (List (Vec × Vec)) := fun _ => none

/-- Concrete weight-gradient accumulator shaped like `netA.weights`. -/
def wsA : List Mat := [[], [[4]]]

/-- Concrete bias-gradient accumulator shaped like `netA.biases`. -/
def bsA : List Vec := [[1], [6]]

/-- Concrete previous-epoch weight accumulator shaped like `netA.weights`. -/
def lwA : List Mat := [[], [[8]]]

/-- Concrete previous-epoch bias accumulator shaped like `netA.biases`. -/
def lbA : List Vec := [[3], [2]]

/-- A definition with one activation coefficient per layer. -/
def defnC4 : NetworkDefn :=
  { layers := [1, 1], activation_coeffs := [0, 1], activation_fn := "id" }

/-- The network produced by `from_definition` on layers `[1,1]` with one
activation coefficient per layer. -/
def netC4 : Network :=
  { layer_sizes := [1, 1], activation_coeffs := [0, 0, 1],
    weights := [[], [[0]]], biases := [[0], [0]],
    activation_fn := ActivationFunction.Identity }

/-! List index helpers. -/

theorem getD_set_self (l : List α) (i : Nat) (v d : α) (h : i < l.length) :
    (l.set i v).getD i d = v := by
  simp [List.getD, List.getElem?_set_self, h]

theorem getD_set_ne (l : List α) {i j : Nat} (v d : α) (h : i ≠ j) :
    (l.set i v).getD j d = l.getD j d := by
  simp [List.getD, List.getElem?_set_ne h]

theorem getD_map (f : α → β) (l : List α) (i : Nat) (d : β) (d' : α)
    (h : i < l.length) : (l.map f).getD i d = f (l.getD i d') := by
  simp [List.getD, List.getElem?_map, List.getElem?_eq_getElem h]

theorem getD_zipWith (f : α → β → γ) (a : List α) (b : List β) (i : Nat)
    (da : α) (db : β) (dc : γ) (ha : i < a.length) (hb : i < b.length) :
    (List.zipWith f a b).getD i dc = f (a.getD i da) (b.getD i db) := by
  simp [List.getD, List.getElem?_zipWith,
    List.getElem?_eq_getElem ha, List.getElem?_eq_getElem hb]

theorem getLastD_eq_getD (l : List α) (d : α) :
    l.getLastD d = l.getD (l.length - 1) d := by
  simp [List.getLastD_eq_getLast?, List.getLast?_eq_getElem?, List.getD]

theorem getD_append_left (l l' : List α) (i : Nat) (d : α) (h : i < l.length) :
    (l ++ l').getD i d = l.getD i d := by
  simp [List.getD, List.getElem?_append_left h]

theorem getD_range (n i : Nat) (d : Nat) (h : i < n) :
    (List.range n).getD i d = i := by
  simp [List.getD, List.getElem?_range h]

theorem mapIdxFrom_length (f : Nat → α → β) :
    ∀ (k : Nat) (l : List α), (mapIdxFrom f k l).length = l.length := by
  intro k l
  induction l generalizing k with
  | nil => rfl
  | cons x xs ih => simp [mapIdxFrom, ih]

theorem getD_mapIdxFrom (f : Nat → α → β) :
    ∀ (l : List α) (k i : Nat) (d : β) (d' : α), i < l.length →
      (mapIdxFrom f k l).getD i d = f (k + i) (l.getD i d') := by
  intro l
  induction l with
  | nil => intro k i d d' h; simp at h
  | cons x xs ih =>
    intro k i d d' h
    cases i with
    | zero => simp [mapIdxFrom]
    | succ n =>
      have := ih (k + 1) n d d' (by simpa using h)
      simpa [mapIdxFrom, Nat.add_assoc, Nat.add_comm 1 n] using this

theorem zero_layers_length (net : Network) :
    (zero_layers net).length = net.layer_sizes.length := by
  simp [zero_layers]

theorem getD_zero_layers (net : Network) (i : Nat)
    (h : i < net.layer_sizes.length) :
    (zero_layers net).getD i [] = vecZeros (net.layer_sizes.getD i 0) := by
  simpa [zero_layers] using getD_map (fun sz => vecZeros sz) net.layer_sizes i [] 0 h

theorem range_reverse_succ (n : Nat) :
    (List.range (n + 1)).reverse = n :: (List.range n).reverse := by
  simp [List.range_succ]

/-! Characterization of the imperative forward pass by the forward
recurrence. -/

theorem feed_forward_one (net : Network) (env : Env) (st : List Vec × List Vec) :
    feed_forward net env st 1 = st := by
  simp [feed_forward]

theorem feed_forward_succ (net : Network) (env : Env) (st : List Vec × List Vec)
    (m : Nat) :
    feed_forward net env st (m + 2) = ffStep net env (feed_forward net env st (m + 1)) m := by
  show (List.range (m + 2 - 1)).foldl (ffStep net env) st = _
  have : m + 2 - 1 = (m + 1 - 1) + 1 := rfl
  rw [this, List.range_succ, List.foldl_append]
  rfl

theorem layerRec_zero (net : Network) (env : Env) (input : Vec) :
    layerRec net env input 0 = input := rfl

theorem netRec_succ (net : Network) (env : Env) (input : Vec) (i : Nat) :
    netRec net env input (i + 1) =
      List.zipWith (fun a b => a + b)
        (rowMatMul (layerRec net env input i) (net.weights.getD (i + 1) []))
        (net.biases.getD (i + 1) []) := rfl

theorem layerRec_succ (net : Network) (env : Env) (input : Vec) (i : Nat) :
    layerRec net env input (i + 1) =
      (netRec net env input (i + 1)).map
        (fun inp => net.activation_fn.function env inp
          (net.activation_coeffs.getD (i + 1) 0)) := rfl

theorem ff_char (net : Network) (env : Env) (input : Vec)
    (hL : 1 ≤ net.layer_sizes.length) :
    ∀ m, m < net.layer_sizes.length →
      (feed_forward net env ((zero_layers net).set 0 input, zero_layers net) (m + 1)).1.length
          = net.layer_sizes.length ∧
      (feed_forward net env ((zero_layers net).set 0 input, zero_layers net) (m + 1)).2.length
          = net.layer_sizes.length ∧
      (∀ j, j ≤ m →
        (feed_forward net env ((zero_layers net).set 0 input, zero_layers net) (m + 1)).1.getD j []
          = layerRec net env input j) ∧
      (∀ j, 1 ≤ j → j ≤ m →
        (feed_forward net env ((zero_layers net).set 0 input, zero_layers net) (m + 1)).2.getD j []
          = netRec net env input j) := by
  intro m
  induction m with
  | zero =>
    intro hm
    rw [feed_forward_one]
    refine ⟨by simp [zero_layers_length], by simp [zero_layers_length], ?_, ?_⟩
    · intro j hj
      interval_cases j
      rw [layerRec_zero]
      exact getD_set_self _ 0 input [] (by simpa [zero_layers_length] using hL)
    · intro j hj1 hj2
      omega
  | succ m ih =>
    intro hm
    have hm' : m < net.layer_sizes.length := Nat.lt_of_succ_lt hm
    obtain ⟨h1, h2, h3, h4⟩ := ih hm'
    rw [feed_forward_succ]
    set F := feed_forward net env ((zero_layers net).set 0 input, zero_layers net) (m + 1)
      with hF
    have hni : List.zipWith (fun a b => a + b)
        (rowMatMul (F.1.getD m []) (net.weights.getD (m + 1) []))
        (net.biases.getD (m + 1) []) = netRec net env input (m + 1) := by
      rw [h3 m le_rfl, netRec_succ]
    refine ⟨?_, ?_, ?_, ?_⟩
    · simpa [ffStep] using h1
    · simpa [ffStep] using h2
    · intro j hj
      rcases Nat.lt_or_ge j (m + 1) with hlt | hge
      · have hne : m + 1 ≠ j := by omega
        simp only [ffStep]
        rw [getD_set_ne _ _ _ hne]
        exact h3 j (by omega)
      · have hj' : j = m + 1 := by omega
        subst hj'
        have hlen : m + 1 < F.1.length := by omega
        simp only [ffStep]
        rw [getD_set_self _ _ _ _ hlen, hni, layerRec_succ]
    · intro j hj1 hj2
      rcases Nat.lt_or_ge j (m + 1) with hlt | hge
      · have hne : m + 1 ≠ j := by omega
        simp only [ffStep]
        rw [getD_set_ne _ _ _ hne]
        exact h4 j hj1 (by omega)
      · have hj' : j = m + 1 := by omega
        subst hj'
        have hlen : m + 1 < F.2.length := by omega
        simp only [ffStep]
        rw [getD_set_self _ _ _ _ hlen, hni]

/-- C5: for every network with `L` layers and an input of width
`layer_sizes[0]` placed at layer 0, the forward pass computes, for each
layer `i` in `1..L-1`, `net[i] = layer[i-1] · weights[i] + biases[i]` and
`layer[i] = activation_fn(net[i], activation_coeffs[i])` elementwise, and
`eval` returns the final layer `layer[L-1]`. -/
theorem feed_forward_spec (net : Network) (env : Env) (input : Vec)
    (hL : 1 ≤ net.layer_sizes.length)
    (hin : input.length = net.layer_sizes.getD 0 0) :
    (∀ i, 1 ≤ i → i < net.layer_sizes.length →
      (eval_impl net env (zero_layers net) input (zero_layers net).length).2.getD i [] =
        List.zipWith (fun a b => a + b)
          (rowMatMul
            ((eval_impl net env (zero_layers net) input (zero_layers net).length).1.getD (i - 1) [])
            (net.weights.getD i []))
          (net.biases.getD i []) ∧
      (eval_impl net env (zero_layers net) input (zero_layers net).length).1.getD i [] =
        ((eval_impl net env (zero_layers net) input (zero_layers net).length).2.getD i []).map
          (fun inp => net.activation_fn.function env inp (net.activation_coeffs.getD i 0))) ∧
    eval net env input =
      (eval_impl net env (zero_layers net) input (zero_layers net).length).1.getD
        (net.layer_sizes.length - 1) [] := by
  obtain ⟨L', hL'⟩ : ∃ L', net.layer_sizes.length = L' + 1 :=
    ⟨net.layer_sizes.length - 1, by omega⟩
  have himp : eval_impl net env (zero_layers net) input (zero_layers net).length =
      feed_forward net env ((zero_layers net).set 0 input, zero_layers net) (L' + 1) := by
    rw [eval_impl, zero_layers_length, hL']
  obtain ⟨h1, h2, h3, h4⟩ := ff_char net env input hL L' (by omega)
  constructor
  · intro i hi1 hi2
    obtain ⟨i', rfl⟩ : ∃ i', i = i' + 1 := ⟨i - 1, by omega⟩
    have hsub : i' + 1 - 1 = i' := rfl
    constructor
    · rw [himp, hsub, h4 (i' + 1) (by omega) (by omega), h3 i' (by omega), netRec_succ]
    · rw [himp, h3 (i' + 1) (by omega), h4 (i' + 1) (by omega) (by omega),
        layerRec_succ]
  · show (eval_impl net env (zero_layers net) input (zero_layers net).length).1.getLastD [] = _
    rw [himp, getLastD_eq_getD, h1]

/-- C2 (amended): `eval_to_layer(input, k)` runs the full forward pass
(its stop argument is ignored) and returns the activations at layer `k-1`
of the forward recurrence, i.e. the caller-supplied index is 1-based. -/
theorem eval_to_layer_spec (net : Network) (env : Env) (input : Vec) (k : Nat)
    (hL : 1 ≤ net.layer_sizes.length) (hk1 : 1 ≤ k) (hk : k ≤ net.layer_sizes.length)
    (hin : input.length = net.layer_sizes.getD 0 0) :
    eval_to_layer net env input k = layerRec net env input (k - 1) := by
  obtain ⟨L', hL'⟩ : ∃ L', net.layer_sizes.length = L' + 1 :=
    ⟨net.layer_sizes.length - 1, by omega⟩
  have himp : eval_impl net env (zero_layers net) input k =
      feed_forward net env ((zero_layers net).set 0 input, zero_layers net) (L' + 1) := by
    rw [eval_impl, zero_layers_length, hL']
  obtain ⟨h1, h2, h3, h4⟩ := ff_char net env input hL L' (by omega)
  show (eval_impl net env (zero_layers net) input k).1.getD (k - 1) [] = _
  rw [himp, h3 (k - 1) (by omega)]

unseal Rat.mul Rat.inv Rat.add Rat.sub in
/-- C2 (counterexample): on the concrete network `netA` with weight 2, the
claim's reading `eval_to_layer(input, k) = layer[k]` fails at `k = 1`: the
code returns `layer[0] = [1]` while `layer[1] = [2]`. -/
theorem eval_to_layer_cex :
    eval_to_layer netA envI [1] 1 ≠ layerRec netA envI [1] 1 := by decide

/-- C5 (witness): on `netA` with input `[1]`, `eval` returns the last
layer of the forward state. -/
theorem feed_forward_spec_witness :
    eval netA envI [1] =
      (eval_impl netA envI (zero_layers netA) [1] (zero_layers netA).length).1.getD 1 [] :=
  (feed_forward_spec netA envI [1] (by decide) (by decide)).2

/-- C2 (witness): on `netA`, `eval_to_layer` with 1-based index 2 returns
`layer[1]` of the forward recurrence. -/
theorem eval_to_layer_spec_witness :
    eval_to_layer netA envI [1] 2 = layerRec netA envI [1] 1 :=
  eval_to_layer_spec netA envI [1] 2 (by decide) (by decide) (by decide) (by decide)

/-- C8: the three activation functions compute exactly the specified
formulas: Sigmoid `1/(1+e^{-c·x})` with derivative `c·f(x)·(1-f(x))`;
Tanh `tanh(c·x)` with the nonstandard derivative `c / cosh(c·x)`;
Identity `c·x` with derivative `c`.  All are total Lean functions, so none
can raise. -/
theorem activation_function_formulas (env : Env) (x coeff : ℚ) :
    ActivationFunction.function ActivationFunction.Sigmoid env x coeff
        = 1 / (1 + env.exp (-(coeff * x))) ∧
    ActivationFunction.derivative ActivationFunction.Sigmoid env x coeff
        = coeff * ActivationFunction.function ActivationFunction.Sigmoid env x coeff *
            (1 - ActivationFunction.function ActivationFunction.Sigmoid env x coeff) ∧
    ActivationFunction.function ActivationFunction.Tanh env x coeff
        = env.tanh (coeff * x) ∧
    ActivationFunction.derivative ActivationFunction.Tanh env x coeff
        = coeff / env.cosh (coeff * x) ∧
    ActivationFunction.function ActivationFunction.Identity env x coeff = coeff * x ∧
    ActivationFunction.derivative ActivationFunction.Identity env x coeff = coeff := by
  refine ⟨?_, rfl, ?_, ?_, mul_comm x coeff, rfl⟩
  · show 1 / (1 + env.exp (-x * coeff)) = 1 / (1 + env.exp (-(coeff * x)))
    rw [show -x * coeff = -(coeff * x) by ring]
  · show env.tanh (x * coeff) = env.tanh (coeff * x)
    rw [mul_comm]
  · show coeff / env.cosh (x * coeff) = coeff / env.cosh (coeff * x)
    rw [mul_comm]

unseal Rat.mul Rat.inv Rat.add Rat.sub in
/-- C3 (counterexample): on `netA` (weight matrices `0×0` and `[[2]]`) with
λ = 1, error 0 and N = 4 examples, the code computes
`1 * ((0/4) + (4/4)) / 2 = 1/2`, while the claim's formula
`e + (Σ mean(w²))·λ/num_weight_layers` gives `(0 + 4)·1/2 = 2` (or `4` if
the 0×0 placeholder is not counted as a weight layer). -/
theorem cost_cex :
    cost netA 0 4 confR = 1/2 ∧ claimedCost netA 0 confR = 2 ∧
    cost netA 0 4 confR ≠ claimedCost netA 0 confR ∧ cost netA 0 4 confR ≠ 4 := by
  decide

/-- C3 (amended): for `N > 0` examples, `cost` returns exactly the error
term when λ = 0 and otherwise
`e + λ · (Σ over stored weight matrices of sumsq(w)/N) / (number of stored
weight matrices, the index-0 placeholder included)` — each per-matrix sum
of squares is divided by the example count `N`, not by the number of
entries of the matrix. -/
theorem cost_spec (net : Network) (e : ℚ) (N : Nat) (conf : TrainConfig)
    (hN : N ≠ 0) :
    (conf.regularization_param = 0 → cost net e N conf = e) ∧
    (conf.regularization_param ≠ 0 →
      cost net e N conf = e + conf.regularization_param *
        ((net.weights.map (fun mat => sumSq mat.flatten / (N : ℚ))).sum) /
        (net.weights.length : ℚ)) := by
  constructor
  · intro h
    simp [cost, hN, h]
  · intro h
    simp [cost, hN, h]

unseal Rat.mul Rat.inv Rat.add Rat.sub in
/-- C3 (witness): both branches of `cost_spec` evaluated on concrete
networks. -/
theorem cost_spec_witness :
    cost netW 5 4 confW = 5 ∧
    cost netA 3 4 confR = 3 + confR.regularization_param *
      ((netA.weights.map (fun mat => sumSq mat.flatten / ((4 : Nat) : ℚ))).sum) /
      (netA.weights.length : ℚ) :=
  ⟨(cost_spec netW 5 4 confW (by decide)).1 (by decide),
   (cost_spec netA 3 4 confR (by decide)).2 (by decide)⟩

/-- C4 (counterexample): a definition with one activation coefficient per
layer (`len(activation_coeffs) == len(layers) = 2`) yields a network whose
coefficient list has length 3 ≠ 2: the inserted 0.0 placeholder breaks the
claimed index alignment. -/
theorem from_definition_cex :
    from_definition defnC4 = some netC4 ∧
    netC4.activation_coeffs.length ≠ netC4.layer_sizes.length := by
  constructor
  · rfl
  · decide

/-- C4 (amended): for a definition with one coefficient per layer and at
least two layers, `from_definition` produces index-aligned `weights` and
`biases` (`len = len(layer_sizes)`, `weights[0]` the 0×0 placeholder) and a
coefficient list of length `len(layer_sizes) + 1` whose entry 0 is the
0.0 placeholder — one longer than the claimed alignment, because the
insertion at index 0 shifts the per-layer coefficients. -/
theorem from_definition_spec (defn : NetworkDefn) (net : Network)
    (hlen : defn.activation_coeffs.length = defn.layers.length)
    (hL : 2 ≤ defn.layers.length)
    (hn : from_definition defn = some net) :
    net.layer_sizes = defn.layers ∧
    net.activation_coeffs.length = net.layer_sizes.length + 1 ∧
    net.activation_coeffs.getD 0 1 = 0 ∧
    net.weights.length = net.layer_sizes.length ∧
    net.biases.length = net.layer_sizes.length ∧
    net.weights.getD 0 [[1]] = [] := by
  rw [from_definition] at hn
  cases hpa : parseActivation defn.activation_fn with
  | none => rw [hpa] at hn; simp at hn
  | some fn =>
    rw [hpa] at hn
    simp at hn
    subst hn
    refine ⟨rfl, ?_, rfl, ?_, ?_, rfl⟩
    · simp [hlen]
    · simp only [List.length_cons, List.length_map, List.length_range]
      omega
    · simp

/-- C4 (witness): the concrete instance of `from_definition_spec` on layers
`[1,1]`. -/
theorem from_definition_spec_witness :
    netC4.layer_sizes = [1, 1] ∧
    netC4.activation_coeffs.length = netC4.layer_sizes.length + 1 ∧
    netC4.activation_coeffs.getD 0 1 = 0 ∧
    netC4.weights.length = netC4.layer_sizes.length ∧
    netC4.biases.length = netC4.layer_sizes.length ∧
    netC4.weights.getD 0 [[1]] = [] :=
  from_definition_spec defnC4 netC4 (by decide) (by decide) (by rfl)

/-! Characterization of the imperative backward pass by the backward
recurrence. -/

theorem derivLayers_length (net : Network) (env : Env) (layers : List Vec) :
    (derivLayers net env layers).length = layers.length := by
  simp only [derivLayers, List.length_append, List.length_zipWith, List.length_drop]
  omega

theorem getD_derivLayers (net : Network) (env : Env) (layers : List Vec) (i : Nat)
    (hi : i < layers.length) (hc : i < net.activation_coeffs.length) :
    (derivLayers net env layers).getD i [] =
      (layers.getD i []).map
        (fun x => net.activation_fn.derivative env x (net.activation_coeffs.getD i 0)) := by
  have hz : i < (List.zipWith
      (fun l c => l.map (fun x => net.activation_fn.derivative env x c))
      layers net.activation_coeffs).length := by
    rw [List.length_zipWith]
    omega
  rw [derivLayers, getD_append_left _ _ _ _ hz,
    getD_zipWith _ _ _ _ [] 0 [] hi hc]

theorem deltaRec_succ (net : Network) (dl : List Vec) (diff : Vec) (L k : Nat) :
    deltaRec net dl diff L (k + 1) =
      List.zipWith (fun d x => d * x)
        (matVecMul (net.weights.getD (L - 1 - k) []) (deltaRec net dl diff L k))
        (dl.getD (L - 2 - k) []) := rfl

theorem bp_char (net : Network) (dl : List Vec) (diff : Vec) (L : Nat) :
    ∀ n, n + 1 ≤ L → ∀ d : List Vec, d.length = L →
      (∀ p, n ≤ p → p < L → d.getD p [] = deltaRec net dl diff L (L - 1 - p)) →
      (((List.range n).reverse.foldl (bpStep net dl) d).length = L ∧
       ∀ p, p < L → ((List.range n).reverse.foldl (bpStep net dl) d).getD p []
          = deltaRec net dl diff L (L - 1 - p)) := by
  intro n
  induction n with
  | zero =>
    intro hn d hlen hinv
    exact ⟨hlen, fun p hp => hinv p (Nat.zero_le p) hp⟩
  | succ n ih =>
    intro hn d hlen hinv
    rw [range_reverse_succ]
    simp only [List.foldl_cons]
    apply ih (by omega)
    · simp [bpStep, List.length_set, hlen]
    · intro p hp1 hp2
      rcases Nat.lt_or_ge n p with hlt | hge
      · have hne : n ≠ p := by omega
        rw [bpStep, getD_set_ne _ _ _ hne]
        exact hinv p (by omega) hp2
      · have hp' : p = n := by omega
        subst hp'
        have hplen : p < d.length := by omega
        rw [bpStep, getD_set_self _ _ _ _ hplen]
        have hnext : d.getD (p + 1) [] = deltaRec net dl diff L (L - 1 - (p + 1)) :=
          hinv (p + 1) (by omega) (by omega)
        have h1 : L - 1 - p = (L - 1 - (p + 1)) + 1 := by omega
        have h2 : L - 1 - (L - 1 - (p + 1)) = p + 1 := by omega
        have h3 : L - 2 - (L - 1 - (p + 1)) = p := by omega
        rw [h1, deltaRec_succ, h2, h3, hnext]

/-- C6: `backpropagate` first replaces every pre-activation value by its
activation derivative (`fprime[i] = derivative(net[i], coeff[i])`
elementwise), sets `delta[last] = out_layer_diff ⊙ fprime[last]`, and for
each layer `i` from `L-2` down to `1` sets
`delta[i] = (weights[i+1] · delta[i+1]) ⊙ fprime[i]`, returning one
error-signal vector per layer, index-aligned with `layer_sizes`. -/
theorem backpropagate_spec (net : Network) (env : Env) (layers : List Vec)
    (diff : Vec) (conf : TrainConfig)
    (hL : 1 ≤ net.layer_sizes.length)
    (hlen : layers.length = net.layer_sizes.length)
    (hco : net.activation_coeffs.length = net.layer_sizes.length) :
    (∀ i, i < net.layer_sizes.length →
      (derivLayers net env layers).getD i [] =
        (layers.getD i []).map
          (fun x => net.activation_fn.derivative env x (net.activation_coeffs.getD i 0))) ∧
    (backpropagate net env layers diff conf).length = net.layer_sizes.length ∧
    (backpropagate net env layers diff conf).getD (net.layer_sizes.length - 1) [] =
      List.zipWith (fun e fz => e * fz) diff
        ((derivLayers net env layers).getD (net.layer_sizes.length - 1) []) ∧
    (∀ i, 1 ≤ i → i + 1 < net.layer_sizes.length →
      (backpropagate net env layers diff conf).getD i [] =
        List.zipWith (fun d x => d * x)
          (matVecMul (net.weights.getD (i + 1) [])
            ((backpropagate net env layers diff conf).getD (i + 1) []))
          ((derivLayers net env layers).getD i [])) := by
  have hdl : (derivLayers net env layers).length = net.layer_sizes.length := by
    rw [derivLayers_length, hlen]
  have hzl : (zero_layers net).length = net.layer_sizes.length := zero_layers_length net
  have hbp : backpropagate net env layers diff conf =
      (List.range ((derivLayers net env layers).length - 1)).reverse.foldl
        (bpStep net (derivLayers net env layers))
        ((zero_layers net).set ((zero_layers net).length - 1)
          (List.zipWith (fun e fz => e * fz) diff
            ((derivLayers net env layers).getLastD []))) := rfl
  have hlast : (derivLayers net env layers).getLastD [] =
      (derivLayers net env layers).getD (net.layer_sizes.length - 1) [] := by
    rw [getLastD_eq_getD, hdl]
  have hd1len : ((zero_layers net).set ((zero_layers net).length - 1)
      (List.zipWith (fun e fz => e * fz) diff
        ((derivLayers net env layers).getLastD []))).length
      = net.layer_sizes.length := by
    rw [List.length_set, hzl]
  obtain ⟨hflen, hfchar⟩ := bp_char net (derivLayers net env layers) diff
    net.layer_sizes.length (net.layer_sizes.length - 1) (by omega)
    ((zero_layers net).set ((zero_layers net).length - 1)
      (List.zipWith (fun e fz => e * fz) diff
        ((derivLayers net env layers).getLastD []))) hd1len
    (by
      intro p hp1 hp2
      have hp' : p = net.layer_sizes.length - 1 := by omega
      subst hp'
      rw [hzl, getD_set_self _ _ _ _ (by omega)]
      have hz : net.layer_sizes.length - 1 - (net.layer_sizes.length - 1) = 0 := by omega
      rw [hz, deltaRec])
  refine ⟨?_, ?_, ?_, ?_⟩
  · intro i hi
    exact getD_derivLayers net env layers i (by omega) (by omega)
  · rw [hbp, hdl]
    exact hflen
  · rw [hbp, hdl, hfchar (net.layer_sizes.length - 1) (by omega)]
    have hz : net.layer_sizes.length - 1 - (net.layer_sizes.length - 1) = 0 := by omega
    rw [hz, deltaRec, hlast]
  · intro i hi1 hi2
    rw [hbp, hdl, hfchar i (by omega), hfchar (i + 1) (by omega)]
    have h1 : net.layer_sizes.length - 1 - i = (net.layer_sizes.length - 1 - (i + 1)) + 1 := by
      omega
    have h2 : net.layer_sizes.length - 1 - (net.layer_sizes.length - 1 - (i + 1)) = i + 1 := by
      omega
    have h3 : net.layer_sizes.length - 2 - (net.layer_sizes.length - 1 - (i + 1)) = i := by
      omega
    rw [h1, deltaRec_succ, h2, h3]

/-- C6 (witness): the backpropagation result on the concrete three-layer
network `netB` has one error-signal vector per layer. -/
theorem backpropagate_spec_witness :
    (backpropagate netB envI [[5], [7], [9]] [1] confR).length = 3 :=
  (backpropagate_spec netB envI [[5], [7], [9]] [1] confR
    (by decide) (by decide) (by decide)).2.1

/-! The per-entry weight-update rule and the momentum carry-over. -/

theorem getD_matMap2_row (f : ℚ → ℚ → ℚ) (a b : Mat) (i : Nat)
    (hi1 : i < a.length) (hi2 : i < b.length) :
    (matMap2 f a b).getD i [] = List.zipWith f (a.getD i []) (b.getD i []) := by
  rw [matMap2, getD_zipWith _ _ _ _ [] [] [] hi1 hi2]

theorem getD_matMap2 (f : ℚ → ℚ → ℚ) (a b : Mat) (i j : Nat)
    (hi1 : i < a.length) (hi2 : i < b.length)
    (hj1 : j < (a.getD i []).length) (hj2 : j < (b.getD i []).length) :
    ((matMap2 f a b).getD i []).getD j 0 =
      f ((a.getD i []).getD j 0) ((b.getD i []).getD j 0) := by
  rw [matMap2, getD_zipWith _ _ _ _ [] [] [] hi1 hi2,
    getD_zipWith _ _ _ _ 0 0 0 hj1 hj2]

/-- C7: the per-epoch update multiplies a weight by
`1 − λ·lr/N` exactly when its layer index is 1, then subtracts `dw/N·lr`,
and, only when momentum is configured, additionally subtracts
`last_dw/N·momentum`; biases obey the same rule without the regularization
factor; and the previous-epoch accumulators are carried across epochs only
when momentum is enabled, starting as the all-zero accumulators. -/
theorem update_weights_spec :
    (∀ (net : Network) (wsum : List Mat) (bsum : List Vec) (lastW : List Mat)
        (lastB : List Vec) (N : Nat) (conf : TrainConfig) (it i j : Nat),
      conf.momentum_rate = none → 0 < N →
      it < net.weights.length →
      i < (net.weights.getD it []).length → i < (wsum.getD it []).length →
      j < ((net.weights.getD it []).getD i []).length →
      j < ((wsum.getD it []).getD i []).length →
      (((update_weights net wsum bsum lastW lastB N conf).weights.getD it []).getD i []).getD j 0
        = (if it = 1 then
             ((net.weights.getD it []).getD i []).getD j 0 *
               (1 - conf.regularization_param * conf.learning_rate / (N : ℚ))
           else ((net.weights.getD it []).getD i []).getD j 0)
          - ((wsum.getD it []).getD i []).getD j 0 / (N : ℚ) * conf.learning_rate) ∧
    (∀ (net : Network) (wsum : List Mat) (bsum : List Vec) (lastW : List Mat)
        (lastB : List Vec) (N : Nat) (conf : TrainConfig) (m : ℚ) (it i j : Nat),
      conf.momentum_rate = some m → 0 < N →
      it < net.weights.length →
      i < (net.weights.getD it []).length → i < (wsum.getD it []).length →
      i < (lastW.getD it []).length →
      j < ((net.weights.getD it []).getD i []).length →
      j < ((wsum.getD it []).getD i []).length →
      j < ((lastW.getD it []).getD i []).length →
      (((update_weights net wsum bsum lastW lastB N conf).weights.getD it []).getD i []).getD j 0
        = ((if it = 1 then
              ((net.weights.getD it []).getD i []).getD j 0 *
                (1 - conf.regularization_param * conf.learning_rate / (N : ℚ))
            else ((net.weights.getD it []).getD i []).getD j 0)
           - ((wsum.getD it []).getD i []).getD j 0 / (N : ℚ) * conf.learning_rate)
          - ((lastW.getD it []).getD i []).getD j 0 / (N : ℚ) * m) ∧
    (∀ (net : Network) (wsum : List Mat) (bsum : List Vec) (lastW : List Mat)
        (lastB : List Vec) (N : Nat) (conf : TrainConfig) (it i : Nat),
      conf.momentum_rate = none → 0 < N →
      it < net.biases.length →
      i < (net.biases.getD it []).length → i < (bsum.getD it []).length →
      ((update_weights net wsum bsum lastW lastB N conf).biases.getD it []).getD i 0
        = (net.biases.getD it []).getD i 0
          - (bsum.getD it []).getD i 0 / (N : ℚ) * conf.learning_rate) ∧
    (∀ (net : Network) (wsum : List Mat) (bsum : List Vec) (lastW : List Mat)
        (lastB : List Vec) (N : Nat) (conf : TrainConfig) (m : ℚ) (it i : Nat),
      conf.momentum_rate = some m → 0 < N →
      it < net.biases.length →
      i < (net.biases.getD it []).length → i < (bsum.getD it []).length →
      i < (lastB.getD it []).length →
      ((update_weights net wsum bsum lastW lastB N conf).biases.getD it []).getD i 0
        = ((net.biases.getD it []).getD i 0
            - (bsum.getD it []).getD i 0 / (N : ℚ) * conf.learning_rate)
          - (lastB.getD it []).getD i 0 / (N : ℚ) * m) ∧
    (∀ net : Network,
      (initState net).last_weight_update_sum = zero_weights net ∧
      (initState net).last_bias_update_sum = zero_layers net) ∧
    (∀ (env : Env) (conf : TrainConfig) (vdata : Option (List (Vec × Vec)))
        (batch : List (Vec × Vec)) (s : TrainState),
      conf.momentum_rate = none →
      (epochBody env conf vdata batch s).last_weight_update_sum = s.last_weight_update_sum ∧
      (epochBody env conf vdata batch s).last_bias_update_sum = s.last_bias_update_sum) ∧
    (∀ (env : Env) (conf : TrainConfig) (vdata : Option (List (Vec × Vec)))
        (batch : List (Vec × Vec)) (s : TrainState) (m : ℚ),
      conf.momentum_rate = some m →
      (epochBody env conf vdata batch s).last_weight_update_sum
          = (epochGrads s.net env conf batch).1 ∧
      (epochBody env conf vdata batch s).last_bias_update_sum
          = (epochGrads s.net env conf batch).2.1) := by
  refine ⟨?_, ?_, ?_, ?_, ?_, ?_, ?_⟩
  · intro net wsum bsum lastW lastB N conf it i j hm hN hit hi1 hi2 hj1 hj2
    simp only [update_weights, hm]
    rw [getD_mapIdxFrom _ net.weights 0 it [] [] hit]
    simp only [Nat.zero_add]
    rw [getD_matMap2 _ _ _ i j hi1 hi2 hj1 hj2]
  · intro net wsum bsum lastW lastB N conf m it i j hm hN hit hi1 hi2 hi3 hj1 hj2 hj3
    simp only [update_weights, hm]
    rw [getD_mapIdxFrom _ _ 0 it [] [] (by rw [mapIdxFrom_length]; exact hit)]
    simp only [Nat.zero_add]
    rw [getD_mapIdxFrom _ net.weights 0 it [] [] hit]
    simp only [Nat.zero_add]
    rw [getD_matMap2 _ _ _ i j
      (by rw [matMap2, List.length_zipWith]; omega) hi3
      (by rw [getD_matMap2_row _ _ _ i hi1 hi2, List.length_zipWith]; omega) hj3]
    rw [getD_matMap2 _ _ _ i j hi1 hi2 hj1 hj2]
  · intro net wsum bsum lastW lastB N conf it i hm hN hit hi1 hi2
    simp only [update_weights, hm]
    rw [getD_mapIdxFrom _ net.biases 0 it [] [] hit]
    simp only [Nat.zero_add]
    rw [getD_zipWith _ _ _ _ 0 0 0 hi1 hi2]
  · intro net wsum bsum lastW lastB N conf m it i hm hN hit hi1 hi2 hi3
    simp only [update_weights, hm]
    rw [getD_mapIdxFrom _ _ 0 it [] [] (by rw [mapIdxFrom_length]; exact hit)]
    simp only [Nat.zero_add]
    rw [getD_mapIdxFrom _ net.biases 0 it [] [] hit]
    simp only [Nat.zero_add]
    rw [getD_zipWith _ _ _ _ 0 0 0 (by rw [List.length_zipWith]; omega) hi3]
    rw [getD_zipWith _ _ _ _ 0 0 0 hi1 hi2]
  · intro net
    exact ⟨rfl, rfl⟩
  · intro env conf vdata batch s hm
    cases vdata <;> simp [epochBody, hm, apply_ite]
  · intro env conf vdata batch s m hm
    cases vdata <;> simp [epochBody, hm]

/-- C7 (witness): the update rule evaluated on the concrete network `netA`
with concrete gradient accumulators, in both momentum modes, plus the
momentum carry-over of the loop state. -/
theorem update_weights_spec_witness :
    ((((update_weights netA wsA bsA lwA lbA 2 confR).weights.getD 1 []).getD 0 []).getD 0 0
      = (if 1 = 1 then
           ((netA.weights.getD 1 []).getD 0 []).getD 0 0 *
             (1 - confR.regularization_param * confR.learning_rate / ((2 : Nat) : ℚ))
         else ((netA.weights.getD 1 []).getD 0 []).getD 0 0)
        - ((wsA.getD 1 []).getD 0 []).getD 0 0 / ((2 : Nat) : ℚ) * confR.learning_rate) ∧
    ((((update_weights netA wsA bsA lwA lbA 2 confM).weights.getD 1 []).getD 0 []).getD 0 0
      = ((if 1 = 1 then
            ((netA.weights.getD 1 []).getD 0 []).getD 0 0 *
              (1 - confM.regularization_param * confM.learning_rate / ((2 : Nat) : ℚ))
          else ((netA.weights.getD 1 []).getD 0 []).getD 0 0)
         - ((wsA.getD 1 []).getD 0 []).getD 0 0 / ((2 : Nat) : ℚ) * confM.learning_rate)
        - ((lwA.getD 1 []).getD 0 []).getD 0 0 / ((2 : Nat) : ℚ) * 1) ∧
    (((update_weights netA wsA bsA lwA lbA 2 confR).biases.getD 1 []).getD 0 0
      = (netA.biases.getD 1 []).getD 0 0
        - (bsA.getD 1 []).getD 0 0 / ((2 : Nat) : ℚ) * confR.learning_rate) ∧
    (initState netA).last_weight_update_sum = zero_weights netA ∧
    (epochBody envI confR none [([1], [0])] (initState netA)).last_weight_update_sum
      = (initState netA).last_weight_update_sum ∧
    (epochBody envI confM none [([1], [0])] (initState netA)).last_weight_update_sum
      = (epochGrads (initState netA).net envI confM [([1], [0])]).1 :=
  ⟨update_weights_spec.1 netA wsA bsA lwA lbA 2 confR 1 0 0 rfl (by decide)
      (by decide) (by decide) (by decide) (by decide) (by decide),
   update_weights_spec.2.1 netA wsA bsA lwA lbA 2 confM 1 1 0 0 rfl (by decide)
      (by decide) (by decide) (by decide) (by decide) (by decide) (by decide) (by decide),
   update_weights_spec.2.2.1 netA wsA bsA lwA lbA 2 confR 1 0 rfl (by decide)
      (by decide) (by decide) (by decide),
   (update_weights_spec.2.2.2.2.1 netA).1,
   (update_weights_spec.2.2.2.2.2.1 envI confR none [([1], [0])] (initState netA) rfl).1,
   (update_weights_spec.2.2.2.2.2.2 envI confM none [([1], [0])] (initState netA) 1 rfl).1⟩

/-! Commutativity and zero-identity of the gradient reductions. -/

theorem getD_eq_getElem (l : List α) (i : Nat) (d : α) (h : i < l.length) :
    l.getD i d = l[i] := by
  simp [List.getD, List.getElem?_eq_getElem h]

theorem matAdd_comm (m1 m2 : Mat) :
    matMap2 (fun a b => a + b) m1 m2 = matMap2 (fun a b => a + b) m2 m1 := by
  rw [matMap2, matMap2]
  apply List.zipWith_comm_of_comm
  intro r1 r2
  apply List.zipWith_comm_of_comm
  intro x y
  exact add_comm x y

theorem zipWith_add_zeros (v : Vec) (n : Nat) (h : v.length = n) :
    List.zipWith (fun a b => a + b) (vecZeros n) v = v := by
  induction v generalizing n with
  | nil => cases h; rfl
  | cons x xs ih =>
    cases h
    have hstep : vecZeros (xs.length + 1) = 0 :: vecZeros xs.length := rfl
    rw [List.length_cons, hstep, List.zipWith_cons_cons, zero_add, ih xs.length rfl]

theorem matAdd_zeros (m : Mat) (r c : Nat) (hr : m.length = r)
    (hc : ∀ row ∈ m, row.length = c) :
    matMap2 (fun a b => a + b) (matZeros r c) m = m := by
  induction m generalizing r with
  | nil => cases hr; rfl
  | cons row rest ih =>
    cases hr
    have hstep : matZeros (rest.length + 1) c = vecZeros c :: matZeros rest.length c := rfl
    have hcons : ∀ (a : Vec) (z : Mat) (y : Vec) (w : Mat),
        matMap2 (fun a b => a + b) (a :: z) (y :: w)
          = List.zipWith (fun a b => a + b) a y :: matMap2 (fun a b => a + b) z w :=
      fun a z y w => rfl
    rw [List.length_cons, hstep, hcons, zipWith_add_zeros row c (hc row (by simp)),
      ih rest.length rfl (fun rw hrw => hc rw (by simp [hrw]))]

theorem getD_zero_weights_succ (net : Network) (k : Nat)
    (hk : k + 1 < net.layer_sizes.length) :
    (zero_weights net).getD (k + 1) [] =
      matZeros (net.layer_sizes.getD k 0) (net.layer_sizes.getD (k + 1) 0) := by
  rw [zero_weights, List.getD_cons_succ,
    getD_map _ _ _ _ 0 (by rw [List.length_range]; omega),
    getD_range _ _ _ (by omega)]

/-- C9: the gradient reductions are commutative (for accumulators of equal
layer count) and have the all-zero accumulators `zero_weights` /
`zero_layers` as left identity on accumulators of the network's shapes, so
summing per-example contributions in any order yields the same aggregate. -/
theorem gradient_reduction_spec :
    (∀ a b : List Mat, a.length = b.length → weight_sum a b = weight_sum b a) ∧
    (∀ a b : List Vec, a.length = b.length → bias_sum a b = bias_sum b a) ∧
    (∀ (net : Network) (x : List Mat), 1 ≤ net.layer_sizes.length →
      x.length = net.layer_sizes.length → x.getD 0 [] = [] →
      (∀ i, i + 1 < net.layer_sizes.length →
        (x.getD (i + 1) []).length = net.layer_sizes.getD i 0 ∧
        ∀ row ∈ x.getD (i + 1) [], row.length = net.layer_sizes.getD (i + 1) 0) →
      weight_sum (zero_weights net) x = x) ∧
    (∀ (net : Network) (x : List Vec),
      x.length = net.layer_sizes.length →
      (∀ i, i < net.layer_sizes.length →
        (x.getD i []).length = net.layer_sizes.getD i 0) →
      bias_sum (zero_layers net) x = x) := by
  refine ⟨?_, ?_, ?_, ?_⟩
  · intro a b h
    rw [weight_sum, weight_sum, List.drop_eq_nil_of_le (le_of_eq h),
      List.drop_eq_nil_of_le (le_of_eq h.symm), List.append_nil, List.append_nil]
    apply List.zipWith_comm_of_comm
    intro m1 m2
    exact matAdd_comm m1 m2
  · intro a b h
    rw [bias_sum, bias_sum, List.drop_eq_nil_of_le (le_of_eq h),
      List.drop_eq_nil_of_le (le_of_eq h.symm), List.append_nil, List.append_nil]
    apply List.zipWith_comm_of_comm
    intro v1 v2
    apply List.zipWith_comm_of_comm
    intro x y
    exact add_comm x y
  · intro net x hL hlen h0 hsh
    have hzw : (zero_weights net).length = net.layer_sizes.length := by
      rw [zero_weights, List.length_cons, List.length_map, List.length_range]
      omega
    have hdrop : (zero_weights net).drop x.length = [] :=
      List.drop_eq_nil_of_le (by omega)
    have hlen2 : (List.zipWith (matMap2 (fun a b => a + b)) (zero_weights net) x).length
        = x.length := by
      rw [List.length_zipWith]
      omega
    rw [weight_sum, hdrop, List.append_nil]
    apply List.ext_getElem (by omega)
    intro i h1 h2
    rw [← getD_eq_getElem _ i [] h1, ← getD_eq_getElem _ i [] h2,
      getD_zipWith _ _ _ _ [] [] [] (by omega) (by omega)]
    cases i with
    | zero =>
      rw [h0]
      rfl
    | succ k =>
      have hk : k + 1 < net.layer_sizes.length := by omega
      rw [getD_zero_weights_succ net k hk]
      exact matAdd_zeros _ _ _ (hsh k hk).1 (hsh k hk).2
  · intro net x hlen hsh
    have hzl : (zero_layers net).length = net.layer_sizes.length := zero_layers_length net
    have hdrop : (zero_layers net).drop x.length = [] :=
      List.drop_eq_nil_of_le (by omega)
    rw [bias_sum, hdrop, List.append_nil]
    apply List.ext_getElem (by rw [List.length_zipWith]; omega)
    intro i h1 h2
    rw [← getD_eq_getElem _ i [] h1, ← getD_eq_getElem _ i [] h2,
      getD_zipWith _ _ _ _ [] [] [] (by omega) (by omega),
      getD_zero_layers net i (by omega)]
    exact zipWith_add_zeros _ _ (hsh i (by omega))

/-- C9 (witness): commutativity and the zero identity on concrete
accumulators shaped like `netA`. -/
theorem gradient_reduction_spec_witness :
    weight_sum [[[1]]] [[[2]]] = weight_sum [[[2]]] [[[1]]] ∧
    bias_sum [[1]] [[2]] = bias_sum [[2]] [[1]] ∧
    weight_sum (zero_weights netA) [[], [[5]]] = [[], [[5]]] ∧
    bias_sum (zero_layers netA) [[3], [4]] = [[3], [4]] :=
  ⟨gradient_reduction_spec.1 [[[1]]] [[[2]]] rfl,
   gradient_reduction_spec.2.1 [[1]] [[2]] rfl,
   gradient_reduction_spec.2.2.1 netA [[], [[5]]] (by decide) (by decide) (by decide)
     (by
       intro i hi
       have h0 : i = 0 := by
         have : netA.layer_sizes.length = 2 := by decide
         omega
       subst h0
       exact ⟨by decide, by decide⟩),
   gradient_reduction_spec.2.2.2 netA [[3], [4]] (by decide) (by decide)⟩

/-! Immediate exhaustion of the batch supplier. -/

/-- C10: if the supplier returns no batch on the very first request (and
the loop is entered at all), `train` terminates at once: the loop state is
the initial state with only `epoch` bumped to 1, and the returned network —
with or without a validation set — is exactly the network passed in. -/
theorem train_exhausted_spec (env : Env) (conf : TrainConfig)
    (factory : Nat → Option (List (Vec × Vec)))
    (vdata : Option (List (Vec × Vec))) (learning : Option (Nat → Bool))
    (fuel : Nat) (net : Network)
    (hc : loopCond conf learning (initState net) = true)
    (hf : factory 0 = none) (hfuel : 1 ≤ fuel) :
    trainLoop env conf factory vdata learning fuel (initState net)
        = { initState net with epoch := 1 } ∧
    train env conf factory vdata learning fuel net = net := by
  obtain ⟨f, rfl⟩ : ∃ f, fuel = f + 1 := ⟨fuel - 1, by omega⟩
  have h0 : (initState net).epoch = 0 := rfl
  have h1 : trainLoop env conf factory vdata learning (f + 1) (initState net)
      = { initState net with epoch := 1 } := by
    simp only [trainLoop, hc, h0, hf, if_true]
  refine ⟨h1, ?_⟩
  rw [train, h1]
  cases vdata <;> simp [initState]

/-- C10 (witness): concrete immediate exhaustion on `netA` with a
validation set configured. -/
theorem train_exhausted_spec_witness :
    trainLoop envI confR factoryNone (some vdW) none 1 (initState netA)
        = { initState netA with epoch := 1 } ∧
    train envI confR factoryNone (some vdW) none 1 netA = netA :=
  train_exhausted_spec envI confR factoryNone (some vdW) none 1 netA
    (by decide) rfl (by decide)

/-! Early stopping: bookkeeping lemmas about the epoch body and the loop. -/

theorem epochBody_epoch (env : Env) (conf : TrainConfig)
    (vdata : Option (List (Vec × Vec))) (batch : List (Vec × Vec)) (s : TrainState) :
    (epochBody env conf vdata batch s).epoch = s.epoch := by
  cases vdata <;> cases hmom : conf.momentum_rate <;>
    (simp only [epochBody, hmom] <;> try rfl) <;>
    (split <;> rfl)

theorem epochBody_net (env : Env) (conf : TrainConfig)
    (vdata : Option (List (Vec × Vec))) (batch : List (Vec × Vec)) (s : TrainState) :
    (epochBody env conf vdata batch s).net =
      update_weights s.net (epochGrads s.net env conf batch).1
        (epochGrads s.net env conf batch).2.1 s.last_weight_update_sum
        s.last_bias_update_sum batch.length conf := by
  cases vdata <;> cases hmom : conf.momentum_rate <;>
    (simp only [epochBody, hmom] <;> try rfl) <;>
    (split <;> rfl)

theorem epochBody_improve (env : Env) (conf : TrainConfig) (vd : List (Vec × Vec))
    (batch : List (Vec × Vec)) (s : TrainState) (h : s.validation_cost = none) :
    (epochBody env conf (some vd) batch s).epochs_since_validation_improvement = 0 ∧
    (epochBody env conf (some vd) batch s).best_known_net
        = (epochBody env conf (some vd) batch s).net ∧
    (epochBody env conf (some vd) batch s).validation_cost
        = some (epochValCost env conf vd ((epochBody env conf (some vd) batch s).net)) := by
  cases hmom : conf.momentum_rate <;> simp [epochBody, h, hmom]

theorem epochBody_fail (env : Env) (conf : TrainConfig) (vd : List (Vec × Vec))
    (batch : List (Vec × Vec)) (s : TrainState) (c : ℚ)
    (h : s.validation_cost = some c)
    (hge : ¬ (epochValCost env conf vd (update_weights s.net
        (epochGrads s.net env conf batch).1 (epochGrads s.net env conf batch).2.1
        s.last_weight_update_sum s.last_bias_update_sum batch.length conf) < c)) :
    (epochBody env conf (some vd) batch s).epochs_since_validation_improvement
        = s.epochs_since_validation_improvement + 1 ∧
    (epochBody env conf (some vd) batch s).best_known_net = s.best_known_net ∧
    (epochBody env conf (some vd) batch s).validation_cost = some c := by
  cases hmom : conf.momentum_rate <;> simp [epochBody, h, hmom, hge]

theorem runFrom_succ (env : Env) (conf : TrainConfig) (bs : Nat → List (Vec × Vec))
    (vd : List (Vec × Vec)) (net : Network) (k : Nat) :
    runFrom env conf bs vd net (k + 1) =
      epochBody env conf (some vd) (bs ((runFrom env conf bs vd net k).epoch))
        { runFrom env conf bs vd net k with
          epoch := (runFrom env conf bs vd net k).epoch + 1 } := rfl

theorem runFrom_epoch (env : Env) (conf : TrainConfig) (bs : Nat → List (Vec × Vec))
    (vd : List (Vec × Vec)) (net : Network) :
    ∀ k, (runFrom env conf bs vd net k).epoch = k := by
  intro k
  induction k with
  | zero => rfl
  | succ n ih =>
    rw [runFrom_succ, epochBody_epoch]
    simp [ih]

theorem trainLoop_stop (env : Env) (conf : TrainConfig)
    (factory : Nat → Option (List (Vec × Vec)))
    (vdata : Option (List (Vec × Vec))) (learning : Option (Nat → Bool))
    (s : TrainState) (h : loopCond conf learning s = false) :
    ∀ fuel, trainLoop env conf factory vdata learning fuel s = s := by
  intro fuel
  cases fuel with
  | zero => rfl
  | succ f => simp [trainLoop, h]

theorem c1_chain (env : Env) (conf : TrainConfig) (bs : Nat → List (Vec × Vec))
    (vd : List (Vec × Vec)) (net : Network)
    (hmono : ∀ e, e < conf.sequential_validation_failures_required →
      epochValCost env conf vd ((runFrom env conf bs vd net (e + 1)).net) <
        epochValCost env conf vd ((runFrom env conf bs vd net (e + 2)).net)) :
    ∀ d, d < conf.sequential_validation_failures_required →
      epochValCost env conf vd ((runFrom env conf bs vd net 1).net) <
        epochValCost env conf vd ((runFrom env conf bs vd net (d + 2)).net) := by
  intro d
  induction d with
  | zero => intro h; exact hmono 0 h
  | succ n ih => intro h; exact lt_trans (ih (by omega)) (hmono (n + 1) h)

theorem c1_invariant (env : Env) (conf : TrainConfig) (bs : Nat → List (Vec × Vec))
    (vd : List (Vec × Vec)) (net : Network)
    (hmono : ∀ e, e < conf.sequential_validation_failures_required →
      epochValCost env conf vd ((runFrom env conf bs vd net (e + 1)).net) <
        epochValCost env conf vd ((runFrom env conf bs vd net (e + 2)).net)) :
    ∀ m, m ≤ conf.sequential_validation_failures_required →
      (runFrom env conf bs vd net (m + 1)).epochs_since_validation_improvement = m ∧
      (runFrom env conf bs vd net (m + 1)).best_known_net
          = (runFrom env conf bs vd net 1).net ∧
      (runFrom env conf bs vd net (m + 1)).validation_cost
          = some (epochValCost env conf vd ((runFrom env conf bs vd net 1).net)) := by
  intro m
  induction m with
  | zero =>
    intro hm
    have himp := epochBody_improve env conf vd
      (bs ((runFrom env conf bs vd net 0).epoch))
      { runFrom env conf bs vd net 0 with
        epoch := (runFrom env conf bs vd net 0).epoch + 1 } rfl
    rw [← runFrom_succ] at himp
    exact himp
  | succ m ih =>
    intro hm
    obtain ⟨h1, h2, h3⟩ := ih (by omega)
    have hchain := c1_chain env conf bs vd net hmono m (by omega)
    have hfail := epochBody_fail env conf vd
      (bs ((runFrom env conf bs vd net (m + 1)).epoch))
      { runFrom env conf bs vd net (m + 1) with
        epoch := (runFrom env conf bs vd net (m + 1)).epoch + 1 }
      (epochValCost env conf vd ((runFrom env conf bs vd net 1).net))
      h3
      (by
        have hnet : update_weights (runFrom env conf bs vd net (m + 1)).net
            (epochGrads (runFrom env conf bs vd net (m + 1)).net env conf
              (bs ((runFrom env conf bs vd net (m + 1)).epoch))).1
            (epochGrads (runFrom env conf bs vd net (m + 1)).net env conf
              (bs ((runFrom env conf bs vd net (m + 1)).epoch))).2.1
            (runFrom env conf bs vd net (m + 1)).last_weight_update_sum
            (runFrom env conf bs vd net (m + 1)).last_bias_update_sum
            (bs ((runFrom env conf bs vd net (m + 1)).epoch)).length conf
            = (runFrom env conf bs vd net (m + 2)).net := by
          rw [runFrom_succ env conf bs vd net (m + 1), epochBody_net]
        show ¬ (epochValCost env conf vd (update_weights
            (runFrom env conf bs vd net (m + 1)).net _ _ _ _ _ conf) < _)
        rw [hnet]
        exact lt_asymm hchain)
    rw [← runFrom_succ] at hfail
    exact ⟨by rw [hfail.1, h1], by rw [hfail.2.1, h2], hfail.2.2⟩

theorem c1_bridge (env : Env) (conf : TrainConfig) (bs : Nat → List (Vec × Vec))
    (vd : List (Vec × Vec)) (net : Network)
    (hP : 0 < conf.sequential_validation_failures_required)
    (hmax : conf.max_epochs = none)
    (hmono : ∀ e, e < conf.sequential_validation_failures_required →
      epochValCost env conf vd ((runFrom env conf bs vd net (e + 1)).net) <
        epochValCost env conf vd ((runFrom env conf bs vd net (e + 2)).net)) :
    ∀ d m fuel, m + d = conf.sequential_validation_failures_required + 1 → d ≤ fuel →
      trainLoop env conf (fun k => some (bs k)) (some vd) none fuel
          (runFrom env conf bs vd net m)
        = runFrom env conf bs vd net
            (conf.sequential_validation_failures_required + 1) := by
  intro d
  induction d with
  | zero =>
    intro m fuel hm hf
    have hm' : m = conf.sequential_validation_failures_required + 1 := by omega
    subst hm'
    have hesvi := (c1_invariant env conf bs vd net hmono
      conf.sequential_validation_failures_required le_rfl).1
    have hcond : loopCond conf none
        (runFrom env conf bs vd net
          (conf.sequential_validation_failures_required + 1)) = false := by
      simp [loopCond, optFlag, hmax, hesvi, Nat.lt_irrefl]
    exact trainLoop_stop env conf _ (some vd) none _ hcond fuel
  | succ d ih =>
    intro m fuel hm hf
    obtain ⟨f, rfl⟩ : ∃ f, fuel = f + 1 := ⟨fuel - 1, by omega⟩
    have hcond : loopCond conf none (runFrom env conf bs vd net m) = true := by
      cases m with
      | zero =>
        simp only [loopCond, optFlag, hmax]
        simp [runFrom, initState, decide_eq_true_eq]
        exact hP
      | succ m' =>
        have h1 := (c1_invariant env conf bs vd net hmono m' (by omega)).1
        simp only [loopCond, optFlag, hmax]
        simp [h1, decide_eq_true_eq]
        omega
    simp only [trainLoop, hcond, if_true]
    exact ih (m + 1) f (by omega) (by omega)

/-- C1: first conjunct — unconditionally, whenever validation is
configured (any environment, configuration, batch supplier, cancellation
flag, fuel and starting network), `train` returns the loop's best-known
snapshot, so training never ends with a network other than the best
validated checkpoint.  Second conjunct — with patience `P > 0`, no epoch
cap and a never-exhausting batch supplier, if the per-epoch validation
cost strictly increases after epoch 1, then the loop runs exactly `P`
epochs beyond epoch 1 (final epoch counter `P+1`, failure streak exactly
`P`, and the continuation condition is then false), and `train` returns
the epoch-1 snapshot. -/
theorem train_early_stopping :
    (∀ (env : Env) (conf : TrainConfig) (factory : Nat → Option (List (Vec × Vec)))
        (vdata : Option (List (Vec × Vec))) (learning : Option (Nat → Bool))
        (fuel : Nat) (net : Network),
      vdata.isSome = true →
      train env conf factory vdata learning fuel net
        = (trainLoop env conf factory vdata learning fuel
            (initState net)).best_known_net) ∧
    (∀ (env : Env) (conf : TrainConfig) (bs : Nat → List (Vec × Vec))
        (vd : List (Vec × Vec)) (net : Network) (fuel : Nat),
      0 < conf.sequential_validation_failures_required →
      conf.max_epochs = none →
      (∀ e, e < conf.sequential_validation_failures_required →
        epochValCost env conf vd ((runFrom env conf bs vd net (e + 1)).net) <
          epochValCost env conf vd ((runFrom env conf bs vd net (e + 2)).net)) →
      conf.sequential_validation_failures_required + 1 ≤ fuel →
      trainLoop env conf (fun k => some (bs k)) (some vd) none fuel (initState net)
          = runFrom env conf bs vd net
              (conf.sequential_validation_failures_required + 1) ∧
      loopCond conf none (runFrom env conf bs vd net
          (conf.sequential_validation_failures_required + 1)) = false ∧
      (runFrom env conf bs vd net
          (conf.sequential_validation_failures_required + 1)).epoch
        = conf.sequential_validation_failures_required + 1 ∧
      (runFrom env conf bs vd net
          (conf.sequential_validation_failures_required + 1)).epochs_since_validation_improvement
        = conf.sequential_validation_failures_required ∧
      train env conf (fun k => some (bs k)) (some vd) none fuel net
          = (runFrom env conf bs vd net 1).net) := by
  constructor
  · intro env conf factory vdata learning fuel net hv
    obtain ⟨v, rfl⟩ := Option.isSome_iff_exists.mp hv
    simp [train]
  · intro env conf bs vd net fuel hP hmax hmono hfuel
    have hloop : trainLoop env conf (fun k => some (bs k)) (some vd) none fuel
        (initState net)
        = runFrom env conf bs vd net
            (conf.sequential_validation_failures_required + 1) :=
      c1_bridge env conf bs vd net hP hmax hmono
        (conf.sequential_validation_failures_required + 1) 0 fuel (by omega) (by omega)
    have hesvi := (c1_invariant env conf bs vd net hmono
      conf.sequential_validation_failures_required le_rfl).1
    have hbest := (c1_invariant env conf bs vd net hmono
      conf.sequential_validation_failures_required le_rfl).2.1
    have hcond : loopCond conf none (runFrom env conf bs vd net
        (conf.sequential_validation_failures_required + 1)) = false := by
      simp [loopCond, optFlag, hmax, hesvi, Nat.lt_irrefl]
    refine ⟨hloop, hcond, runFrom_epoch env conf bs vd net _, hesvi, ?_⟩
    simp only [train, Option.isSome_some, if_true]
    rw [hloop, hbest]

unseal Rat.mul Rat.inv Rat.add Rat.sub in
/-- C1 (witness): the unconditional snapshot restoration on a validated
config with an epoch cap and a frozen (learning rate 0) network — a case
with no strictly increasing validation run — and the early-stopping run
itself (`netW`, constant batch `([1],[0])`, validation set `([1],[0])`,
learning rate −1, patience 2), whose validation costs are 9, 81, 729 —
strictly increasing — so `train` returns the epoch-1 snapshot. -/
theorem train_early_stopping_witness :
    train envI confCap (fun k => some (bsW k)) (some vdW) none 2 netA
        = (trainLoop envI confCap (fun k => some (bsW k)) (some vdW) none 2
            (initState netA)).best_known_net ∧
    train envI confW (fun k => some (bsW k)) (some vdW) none 3 netW
      = (runFrom envI confW bsW vdW netW 1).net :=
  ⟨train_early_stopping.1 envI confCap (fun k => some (bsW k)) (some vdW) none 2 netA rfl,
   (train_early_stopping.2 envI confW bsW vdW netW 3 (by decide) rfl
     (by decide) (by decide)).2.2.2.2⟩

end NN
